import Mathlib

/-!
Verification of the resume field-extraction pipeline (`main.py`, `main_config.py`)
against its natural-language specification.

The Python source is embedded shallowly: text is `List Char`, Python `re`
patterns are translated into specialized matchers that reproduce the
backtracking/priority semantics of the concrete pattern they embed (leftmost
match, greedy/lazy quantifier order), and fallible Python code (code that can
raise) returns `Except Unit _` while `None`-returning code returns `Option _`.
Character classes (`\w`, `\s`, case folding) are modelled on their ASCII
fragment, matching the ASCII-range scope stated in the specification.
-/

namespace PdfParser

/-- Text is modelled as a list of characters. -/
abbrev Str := List Char

/-! ## Character classes (ASCII model of Python `re` classes and `str` methods) -/

/-- Python `\w` (ASCII fragment): letters, digits, underscore. -/
def isWordChar (c : Char) : Bool := c.isAlpha || c.isDigit || c = '_'

/-- Python `\s` (ASCII fragment): the six ASCII whitespace characters. -/
def isSpaceChar (c : Char) : Bool :=
  c = ' ' || c = '\t' || c = '\n' || c = '\r' || c = '\x0B' || c = '\x0C'

/-- ASCII letter, the class `[A-Za-z]`. -/
def isLetterChar (c : Char) : Bool := c.isAlpha

/-- ASCII digit, the class `\d`. -/
def isDigitChar (c : Char) : Bool := c.isDigit

/-- Case-insensitive character comparison (`re.IGNORECASE`, ASCII fold). -/
def ciEqChar (a b : Char) : Bool := a.toLower = b.toLower

/-! ## Python string primitives -/

/-- Exact literal prefix test: `pat` occurs at the head of `s`. -/
def litAt : Str → Str → Bool
  | [], _ => true
  | _ :: _, [] => false
  | p :: ps, c :: cs => p = c && litAt ps cs

/-- Case-insensitive literal prefix test. -/
def ciAt : Str → Str → Bool
  | [], _ => true
  | _ :: _, [] => false
  | p :: ps, c :: cs => ciEqChar p c && ciAt ps cs

/-- Fuel-driven worker for `pyReplace`; each step consumes at least one
character, so fuel `s.length` always suffices. -/
def pyReplaceGo (pat rep : Str) : Nat → Str → Str
  | _, [] => []
  | 0, s => s
  | fuel + 1, c :: rest =>
    if !pat.isEmpty && litAt pat (c :: rest) then
      rep ++ pyReplaceGo pat rep fuel (List.drop (pat.length - 1) rest)
    else
      c :: pyReplaceGo pat rep fuel rest

/-- Python `str.replace(pat, rep)`: replace all non-overlapping occurrences,
left to right.  All call sites in the source use a non-empty `pat`. -/
def pyReplace (s pat rep : Str) : Str := pyReplaceGo pat rep s.length s

/-- Python `str.strip()` (ASCII whitespace model): drop leading whitespace. -/
def pyLstrip (s : Str) : Str := s.dropWhile isSpaceChar

/-- Python `str.strip()` (ASCII whitespace model). -/
def pyStrip (s : Str) : Str := ((s.dropWhile isSpaceChar).reverse.dropWhile isSpaceChar).reverse

/-- Python `str.split("\n")`: split on newlines, keeping empty pieces. -/
def splitNl : Str → List Str
  | [] => [[]]
  | c :: rest =>
    if c = '\n' then [] :: splitNl rest
    else
      match splitNl rest with
      | [] => [[c]]
      | h :: t => (c :: h) :: t

/-- Python `"\n".join(lines)`. -/
def joinNl : List Str → Str
  | [] => []
  | [l] => l
  | l :: rest => l ++ '\n' :: joinNl rest

/-- Python `str.title()`: a cased character starting a run of alphabetic
characters is uppercased, subsequent ones lowercased (ASCII model). -/
def pyTitleGo (prevAlpha : Bool) : Str → Str
  | [] => []
  | c :: rest =>
    if c.isAlpha then
      (if prevAlpha then c.toLower else c.toUpper) :: pyTitleGo true rest
    else
      c :: pyTitleGo false rest

/-- Python `str.title()`. -/
def pyTitleCase (s : Str) : Str := pyTitleGo false s

/-- Replace every newline by a space (`str.replace("\n", " ")`). -/
def nlToSpace (s : Str) : Str := s.map fun c => if c = '\n' then ' ' else c

/-! ## Stable insertion sort

Python's `sorted` is a stable ascending sort; any stable ascending sort
computes the same list, so it is modelled by stable insertion sort. -/

/-- Insert `a` before the first element `b` with `le a b` (stable position). -/
def ordInsertBy (le : α → α → Bool) (a : α) : List α → List α
  | [] => [a]
  | b :: l => if le a b then a :: b :: l else b :: ordInsertBy le a l

/-- Stable ascending sort by `le` (model of Python `sorted`). -/
def sortBy (le : α → α → Bool) : List α → List α
  | [] => []
  | a :: l => ordInsertBy le a (sortBy le l)

theorem ordInsertBy_perm (le : α → α → Bool) (a : α) (l : List α) :
    List.Perm (ordInsertBy le a l) (a :: l) := by
  induction l with
  | nil => simp [ordInsertBy]
  | cons b l ih =>
    simp only [ordInsertBy]
    by_cases h : le a b
    · simp [h]
    · simp only [h, if_neg, Bool.false_eq_true, not_false_eq_true, ite_false]
      exact ((ih.cons b).trans (List.Perm.swap a b l))

theorem sortBy_perm (le : α → α → Bool) (l : List α) :
    List.Perm (sortBy le l) l := by
  induction l with
  | nil => simp [sortBy]
  | cons a l ih =>
    exact (ordInsertBy_perm le a (sortBy le l)).trans (ih.cons a)

theorem mem_sortBy (le : α → α → Bool) (l : List α) (x : α) :
    x ∈ sortBy le l ↔ x ∈ l :=
  (sortBy_perm le l).mem_iff

theorem pairwise_ordInsertBy (le : α → α → Bool)
    (htot : ∀ x y, le x y = true ∨ le y x = true)
    (htrans : ∀ x y z, le x y = true → le y z = true → le x z = true)
    (a : α) (l : List α) (h : l.Pairwise (le · · = true)) :
    (ordInsertBy le a l).Pairwise (le · · = true) := by
  induction l with
  | nil => simp [ordInsertBy]
  | cons b l ih =>
    rcases h with _ | ⟨hb, hl⟩
    simp only [ordInsertBy]
    by_cases hab : le a b
    · simp only [hab, ite_true]
      refine List.Pairwise.cons ?_ (List.Pairwise.cons hb hl)
      intro x hx
      rcases List.mem_cons.mp hx with rfl | hx
      · exact hab
      · exact htrans a b x hab (hb x hx)
    · simp only [hab, Bool.false_eq_true, ite_false]
      refine List.Pairwise.cons ?_ (ih hl)
      intro x hx
      rcases List.mem_cons.mp ((ordInsertBy_perm le a l).mem_iff.mp hx) with rfl | hx2
      · rcases htot x b with h1 | h1
        · exact absurd h1 (by simpa using hab)
        · exact h1
      · exact hb x hx2

theorem pairwise_sortBy (le : α → α → Bool)
    (htot : ∀ x y, le x y = true ∨ le y x = true)
    (htrans : ∀ x y z, le x y = true → le y z = true → le x z = true)
    (l : List α) : (sortBy le l).Pairwise (le · · = true) := by
  induction l with
  | nil => simp [sortBy]
  | cons a l ih => exact pairwise_ordInsertBy le htot htrans a (sortBy le l) ih

/-! ## Lexicographic string order (Python `<` on `str`, by code point) -/

/-- Python string `<=`, lexicographic by code point. -/
def strLe : Str → Str → Bool
  | [], _ => true
  | _ :: _, [] => false
  | a :: x, b :: y => if a.toNat = b.toNat then strLe x y else decide (a.toNat < b.toNat)

theorem strLe_total (x y : Str) : strLe x y = true ∨ strLe y x = true := by
  induction x generalizing y with
  | nil => left; rfl
  | cons a x ih =>
    cases y with
    | nil => right; rfl
    | cons b y =>
      simp only [strLe]
      by_cases h : a.toNat = b.toNat
      · simp [h]
        exact ih y
      · have h2 : ¬ b.toNat = a.toNat := fun hh => h hh.symm
        rw [if_neg h, if_neg h2]
        simp only [decide_eq_true_eq]
        omega

theorem strLe_trans (x y z : Str) (h1 : strLe x y = true) (h2 : strLe y z = true) :
    strLe x z = true := by
  induction x generalizing y z with
  | nil => rfl
  | cons a x ih =>
    cases y with
    | nil => simp [strLe] at h1
    | cons b y =>
      cases z with
      | nil => simp [strLe] at h2
      | cons c z =>
        simp only [strLe] at h1 h2 ⊢
        by_cases hab : a.toNat = b.toNat
        · rw [if_pos hab] at h1
          by_cases hbc : b.toNat = c.toNat
          · rw [if_pos hbc] at h2
            rw [if_pos (hab.trans hbc)]
            exact ih y z h1 h2
          · rw [if_neg hbc] at h2
            have hac : ¬ a.toNat = c.toNat := by rw [hab]; exact hbc
            rw [if_neg hac]
            simp only [decide_eq_true_eq] at h2 ⊢
            omega
        · rw [if_neg hab] at h1
          simp only [decide_eq_true_eq] at h1
          by_cases hbc : b.toNat = c.toNat
          · have hac : ¬ a.toNat = c.toNat := by omega
            rw [if_neg hac]
            simp only [decide_eq_true_eq]
            omega
          · rw [if_neg hbc] at h2
            simp only [decide_eq_true_eq] at h2
            have hac : ¬ a.toNat = c.toNat := by omega
            rw [if_neg hac]
            simp only [decide_eq_true_eq]
            omega

/-- Python `sorted(list(set(l)))` on a list of strings: deduplicate (set
identity is exact string equality) and sort ascending. -/
def pySortedSet (l : List Str) : List Str := sortBy strLe l.dedup

/-! ## Word-boundary case-insensitive search

Model of `re.search(r"\b{}\b".format(re.escape(title)), text, re.IGNORECASE)`
as used by the skill and designation matchers (`main.py`). -/

/-- Whether the character at index `i` is a word character (`false` outside). -/
def isWordAt (s : Str) (i : Nat) : Bool :=
  match s.get? i with
  | some c => isWordChar c
  | none => false

/-- Python `\b` at position `i`: word-ness flips between `i-1` and `i`. -/
def boundaryAt (s : Str) (i : Nat) : Bool :=
  (if i = 0 then false else isWordAt s (i - 1)) != isWordAt s i

/-- The escaped pattern `\b pat \b` matches (case-insensitively) at index `i`. -/
def ciWordMatchAt (pat s : Str) (i : Nat) : Bool :=
  boundaryAt s i && ciAt pat (s.drop i) && boundaryAt s (i + pat.length)

/-- Whether `re.search(r"\b pat \b", s, re.IGNORECASE)` succeeds. -/
def hasWordMatch (pat s : Str) : Bool :=
  (List.range (s.length + 1)).any fun i => ciWordMatchAt pat s i

/-- Start offset of the earliest whole-word occurrence of `pat` in `s`
(`min(m.start() for m in re.finditer(...))`, `none` playing `float("inf")`). -/
def firstWordMatchIdx (pat s : Str) : Option Nat :=
  (List.range (s.length + 1)).find? fun i => ciWordMatchAt pat s i

/-- Order on earliest-occurrence keys; `none` is `float("inf")`. -/
def keyLe : Option Nat → Option Nat → Bool
  | _, none => true
  | none, some _ => false
  | some a, some b => a ≤ b

theorem keyLe_total (x y : Option Nat) : keyLe x y = true ∨ keyLe y x = true := by
  cases x <;> cases y <;> simp [keyLe] <;> omega

theorem keyLe_trans (x y z : Option Nat) (h1 : keyLe x y = true) (h2 : keyLe y z = true) :
    keyLe x z = true := by
  cases x <;> cases y <;> cases z <;> simp_all [keyLe] <;> omega

/-! ## Skill and designation matchers (`main.py` lines 120-198) -/

/-- A skill reference entry; `itemgetter("title")` projects the title. -/
structure SkillEntry where
  title : Str
deriving DecidableEq

/-- A designation reference entry; `itemgetter("designation")` projects it. -/
structure DesigEntry where
  designation : Str
deriving DecidableEq

/-- Embedding of `check_and_collect_skills`.  `if json_data:` is falsy both
for `None` and for an empty list, in which case the function falls through
and returns Python `None` (here `none`); it never raises. -/
def check_and_collect_skills (text_content : Str) (json_data : Option (List SkillEntry)) :
    Option (List Str) :=
  match json_data with
  | none => none
  | some l =>
    if l.isEmpty then none
    else some ((l.map SkillEntry.title).filter fun t => hasWordMatch t text_content)

/-- Sort key of `check_and_collect_designation_ids`: earliest occurrence
start offset, with `float("inf")` (here `none`) as the default. -/
def desigKey (text_content : Str) (d : Str) : Option Nat := firstWordMatchIdx d text_content

/-- Body of `check_and_collect_designation_ids` once `json_data` is a real
list: filter to titles with a whole-word occurrence, stable-sort by earliest
occurrence offset, and take the head (or `""`) as the result title. -/
def designationCore (text_content : Str) (entries : List DesigEntry) : List Str × Str :=
  let all_designations := entries.map DesigEntry.designation
  let matching_designations := all_designations.filter fun d => hasWordMatch d text_content
  let sorted_designations :=
    sortBy (fun a b => keyLe (desigKey text_content a) (desigKey text_content b))
      matching_designations
  (sorted_designations, sorted_designations.headD [])

/-- Embedding of `check_and_collect_designation_ids`.  Iterating `None`
(`for item in json_data`) raises `TypeError`, modelled as `Except.error`. -/
def check_and_collect_designation_ids (text_content : Str)
    (json_data : Option (List DesigEntry)) : Except Unit (List Str × Str) :=
  match json_data with
  | none => Except.error ()
  | some l => Except.ok (designationCore text_content l)

/-! ## Phone extraction (`main_config.py` lines 31-103)

`PHONE_PATTERN = (\+?\d{0,3}[-\s]?\d{10})`, `PINCODE_PATTERN = \b\d{6}\b`. -/

/-- Take exactly `k` digits, returning them and the rest. -/
def takeDigits : Nat → Str → Option (Str × Str)
  | 0, s => some ([], s)
  | _ + 1, [] => none
  | k + 1, c :: s =>
    if isDigitChar c then (takeDigits k s).map fun p => (c :: p.1, p.2)
    else none

/-- Match `[-\s]?\d{10}` greedily (separator branch tried first). -/
def sepThenTen (s : Str) : Option Str :=
  match s with
  | [] => none
  | c :: rest =>
    if c = '-' || isSpaceChar c then
      match takeDigits 10 rest with
      | some (d, _) => some (c :: d)
      | none => (takeDigits 10 (c :: rest)).map Prod.fst
    else (takeDigits 10 (c :: rest)).map Prod.fst

/-- Match `\d{0,3}[-\s]?\d{10}` greedily (3, 2, 1, then 0 leading digits). -/
def phoneDigitsAt (s : Str) : Option Str :=
  let tryK (k : Nat) : Option Str :=
    match takeDigits k s with
    | some (d, rest) => (sepThenTen rest).map fun m => d ++ m
    | none => none
  ((tryK 3).orElse fun _ => (tryK 2).orElse fun _ => (tryK 1).orElse fun _ => tryK 0)

/-- Match `\+?\d{0,3}[-\s]?\d{10}` at the head of `s` (greedy `\+?`). -/
def phoneAt (s : Str) : Option Str :=
  match s with
  | '+' :: rest =>
    match phoneDigitsAt rest with
    | some m => some ('+' :: m)
    | none => phoneDigitsAt s
  | _ => phoneDigitsAt s

/-- Leftmost match of `PHONE_PATTERN` (`re.search` position scan). -/
def phoneSearch : Str → Option Str
  | [] => none
  | c :: rest =>
    match phoneAt (c :: rest) with
    | some m => some m
    | none => phoneSearch rest

/-- Whether `\b\d{6}\b` matches at index `i`. -/
def pincodeAt (s : Str) (i : Nat) : Bool :=
  boundaryAt s i && ((s.drop i).take 6).length = 6
    && ((s.drop i).take 6).all isDigitChar && boundaryAt s (i + 6)

/-- Leftmost match of `PINCODE_PATTERN`, returning the matched digits. -/
def pincodeSearch (s : Str) : Option Str :=
  ((List.range (s.length + 1)).find? fun i => pincodeAt s i).map fun i => (s.drop i).take 6

/-- Text with every occurrence of the first pincode match removed (the
pincode-removal prelude of `extract_phone`). -/
def pincodeRemoved (text_content : Str) : Str :=
  match pincodeSearch text_content with
  | some p => pyReplace text_content p []
  | none => text_content

/-- Embedding of `extract_phone`: remove every occurrence of the first
pincode match, search `PHONE_PATTERN`, strip `"-"`, `" "` and `"\n"` from the
matched group, and insert a space before the last ten digits when more than
ten characters remain. -/
def extract_phone (text_content : Str) : Option Str :=
  match phoneSearch (pincodeRemoved text_content) with
  | some m =>
    let phone_number := m.filter fun c => !(c = '-' || c = ' ' || c = '\n')
    if 10 < phone_number.length then
      some (phone_number.take (phone_number.length - 10)
        ++ ' ' :: phone_number.drop (phone_number.length - 10))
    else some phone_number
  | none => none

/-! ## Email extraction (`main_config.py` lines 33, 60-71)

`EMAIL_PATTERN = \b[A-Za-z0-9._%+-]+@[A-Za-z0-9.-]+\.[A-Z|a-z]{2,}\b`. -/

/-- The local-part class `[A-Za-z0-9._%+-]`. -/
def isEmailLocalChar (c : Char) : Bool :=
  c.isAlpha || c.isDigit || c = '.' || c = '_' || c = '%' || c = '+' || c = '-'

/-- The domain class `[A-Za-z0-9.-]`. -/
def isEmailDomainChar (c : Char) : Bool := c.isAlpha || c.isDigit || c = '.' || c = '-'

/-- The top-level-domain class `[A-Z|a-z]` (the `|` is literal in the class). -/
def isTldChar (c : Char) : Bool := c.isAlpha || c = '|'

/-- Word-ness of an optional character (`none` stands for outside the text). -/
def isWordOpt : Option Char → Bool
  | some c => isWordChar c
  | none => false

/-- Match `[A-Za-z0-9.-]+\.[A-Z|a-z]{2,}\b` at the head of `rest2`,
backtracking the greedy domain run over the possible `\.` positions (longest
domain first) and the greedy TLD run over its length (longest first). -/
def emailDomainTail (rest2 : Str) : Option Str :=
  let run2 := rest2.takeWhile isEmailDomainChar
  ((List.range run2.length).reverse.filter fun dl => 1 ≤ dl && run2.get? dl = some '.').findSome?
    fun dl =>
      let after := rest2.drop (dl + 1)
      let trun := after.takeWhile isTldChar
      ((List.range (trun.length + 1)).reverse.filter fun tl => 2 ≤ tl).findSome? fun tl =>
        if (match trun.get? (tl - 1) with
            | some c => isWordChar c
            | none => false) != isWordOpt (after.get? tl) then
          some (rest2.take (dl + 1) ++ after.take tl)
        else none

/-- Match the full email pattern at the head of `s`, `prev` being the
character before this position (for the leading `\b`). -/
def emailAt (prev : Option Char) (s : Str) : Option Str :=
  if isWordOpt prev != isWordOpt s.head? then
    let run1 := s.takeWhile isEmailLocalChar
    if run1.isEmpty then none
    else
      match s.drop run1.length with
      | '@' :: rest2 => (emailDomainTail rest2).map fun d => run1 ++ '@' :: d
      | _ => none
  else none

/-- Position scan for `EMAIL_PATTERN` (leftmost match). -/
def emailSearchGo (prev : Option Char) : Str → Option Str
  | [] => none
  | c :: rest =>
    match emailAt prev (c :: rest) with
    | some m => some m
    | none => emailSearchGo (some c) rest

/-- Embedding of `extract_email`: first match of `EMAIL_PATTERN` or `None`. -/
def extract_email (text_content : Str) : Option Str := emailSearchGo none text_content

/-! ## Experience duration (`main_config.py` lines 39-41, 146-165)

`EXPERIENCE_DURATION_PATTERN = (\d+(?:\.\d+)?)\s*(?:\+)?\s*(?:[yY]ears|[yY]ear|[mM]onths?)`. -/

/-- Match the unit alternation `[yY]ears|[yY]ear|[mM]onths?` (in that
priority order, trailing `s?` greedy), returning the matched characters. -/
def unitAt (s : Str) : Option Str :=
  match s with
  | c :: rest =>
    if c = 'y' || c = 'Y' then
      if litAt ('e' :: 'a' :: 'r' :: 's' :: []) rest then some (c :: 'e' :: 'a' :: 'r' :: 's' :: [])
      else if litAt ('e' :: 'a' :: 'r' :: []) rest then some (c :: 'e' :: 'a' :: 'r' :: [])
      else none
    else if c = 'm' || c = 'M' then
      match rest with
      | 'o' :: 'n' :: 't' :: 'h' :: 's' :: _ => some (c :: 'o' :: 'n' :: 't' :: 'h' :: 's' :: [])
      | 'o' :: 'n' :: 't' :: 'h' :: _ => some (c :: 'o' :: 'n' :: 't' :: 'h' :: [])
      | _ => none
    else none
  | [] => none

/-- Match the duration pattern at the head of `s`, returning
`(group 1, group 0)`.  The greedy runs need no backtracking here: a shortened
digit or space run leaves a digit or space at the front of the next atom,
which that atom always rejects. -/
def durationAt (s : Str) : Option (Str × Str) :=
  let d := s.takeWhile isDigitChar
  if d.isEmpty then none
  else
    let r1 := s.drop d.length
    let fracPair : Str × Str :=
      match r1 with
      | '.' :: t =>
        let f := t.takeWhile isDigitChar
        if f.isEmpty then ([], r1) else ('.' :: f, t.drop f.length)
      | _ => ([], r1)
    let g1 := d ++ fracPair.1
    let sp1 := fracPair.2.takeWhile isSpaceChar
    let r3 := fracPair.2.drop sp1.length
    let plusPair : Str × Str :=
      match r3 with
      | '+' :: t => (['+'], t)
      | _ => ([], r3)
    let sp2 := plusPair.2.takeWhile isSpaceChar
    let r5 := plusPair.2.drop sp2.length
    match unitAt r5 with
    | some u => some (g1, g1 ++ sp1 ++ plusPair.1 ++ sp2 ++ u)
    | none => none

/-- Position scan for the duration pattern (leftmost match). -/
def durationSearch : Str → Option (Str × Str)
  | [] => none
  | c :: rest =>
    match durationAt (c :: rest) with
    | some m => some m
    | none => durationSearch rest

/-- Numeric value of a digit string (`float` applied to group 1's digits). -/
def digitsToNat (s : Str) : Nat := s.foldl (fun a c => a * 10 + (c.toNat - 48)) 0

/-- Value of `float(match[1])` for a `\d+(\.\d+)?` group, as an exact
rational. -/
def parseDecimal (s : Str) : ℚ :=
  let ip := s.takeWhile fun c => c != '.'
  let fp := (s.dropWhile fun c => c != '.').drop 1
  (digitsToNat ip : ℚ) + (digitsToNat fp : ℚ) / ((10 : ℚ) ^ fp.length)

/-- Embedding of `extract_experience_duration`: numeric value and literal
matched substring with newlines replaced by spaces; `(0, "0")` when no
match. -/
def extract_experience_duration (text : Str) : ℚ × Str :=
  match durationSearch text with
  | some (g1, g0) => (parseDecimal g1, nlToSpace g0)
  | none => (0, ['0'])

/-! ## Link masking (`LINK_PATTERN = .*\.com.*\n?`, `main_config.py`)

Because `.` excludes newlines and the pattern is anchored nowhere, its
non-overlapping matches are exactly the full lines containing `".com"`,
each including its trailing newline when present. -/

/-- Split into lines, remembering whether each line had a `'\n'` terminator. -/
def splitNlKeep : Str → List (Str × Bool)
  | [] => [([], false)]
  | c :: rest =>
    if c = '\n' then ([], true) :: splitNlKeep rest
    else
      match splitNlKeep rest with
      | [] => [([c], false)]
      | (h, b) :: t => ((c :: h, b)) :: t

/-- Whether a line contains the substring `".com"`. -/
def containsDotCom : Str → Bool
  | [] => false
  | c :: rest => litAt ('.' :: 'c' :: 'o' :: 'm' :: []) (c :: rest) || containsDotCom rest

/-- All matches of `LINK_PATTERN` in document order. -/
def linkMatches (s : Str) : List Str :=
  ((splitNlKeep s).filter fun lb => containsDotCom lb.1).map
    fun lb => lb.1 ++ (if lb.2 then ['\n'] else [])

/-! ## Section extraction

`EXPERIENCE_TEXT_PATTERN` and `SUMMARY_PATTERN` (`main_config.py` lines
47-54): a start-alias alternation, a lazy body capture, and a lookahead
terminator alternation.  The alias lists are transcribed verbatim. -/

/-- Start aliases of `EXPERIENCE_TEXT_PATTERN`, in alternation order. -/
def expStartAliases : List Str :=
  ["EXPERIENCE".data, "Experience".data, "Projects Undertaken:".data,
   "PROJECTS UNDERTAKEN".data, "Projects:".data, "PROJECTS".data, "PROJECTS:".data,
   "Work Experience:".data, "EMPLOYMENT HISTORY".data, "Projects".data,
   "Project Details:".data, "WORK EXPERIENCE :".data, "Projects :".data,
   "EXPERIENCE:".data, "Project".data, "Employment History".data,
   "PR O F E S SI O NA L   E X P E R I E N C E".data, "Work experience".data,
   "PROFESSIONAL EXPERIENCE .".data, "P R O J E C T S".data, "JOBS".data,
   "W O R K E X P E R I E N C E".data, "Work History".data, "PROJECT".data]

/-- Terminator aliases of `EXPERIENCE_TEXT_PATTERN`, in alternation order. -/
def expEndAliases : List Str :=
  ["SKILLS".data, "Skills".data, "Professional Skills".data, "Personal Qualities:".data,
   "PERSONAL QUALITIES:".data, "Personal Qualities".data, "PERSONAL QUALITIES".data,
   "Education".data, "EDUCATION".data, "EXTRACURRICULAR ACTIVITIES".data,
   "Languages".data, "Certification".data, "CERTIFICATE".data,
   "Additional Information:".data, "ACHIEVEMENTS".data, "E D U C A TI O N".data,
   "Interests".data, "TECHNICAL SKILLS".data, "SKILLS:".data, "TRAINING".data,
   "P R O J E C T S".data, "S K I L L S".data, "STRENGTHS".data]

/-- Python `$` (no `MULTILINE`): end of text, or just before a final newline. -/
def dollarAt (s : Str) (q : Nat) : Bool :=
  q = s.length || (q + 1 = s.length && s.get? q = some '\n')

/-- The lookahead `(?=\n(?:END1|...|$))` of the experience pattern holds at
position `p`. -/
def expLookAt (s : Str) (p : Nat) : Bool :=
  s.get? p = some '\n' &&
    ((expEndAliases.any fun e => litAt e (s.drop (p + 1))) || dollarAt s (p + 1))

/-- Shortest body length (`[...]*?` is lazy) whose end satisfies the
experience lookahead, body starting at `start`. -/
def expFindContent (s : Str) (start : Nat) : Option Nat :=
  (List.range (s.length - start + 1)).find? fun c => expLookAt s (start + c)

/-- Try the experience pattern at position `i`: some start alias followed by
a newline, then the lazy body. -/
def expTryAt (s : Str) (i : Nat) : Option Str :=
  expStartAliases.findSome? fun a =>
    if litAt a (s.drop i) && s.get? (i + a.length) = some '\n' then
      (expFindContent s (i + a.length + 1)).map fun c => (s.drop (i + a.length + 1)).take c
    else none

/-- Leftmost match of `EXPERIENCE_TEXT_PATTERN`, returning group 2. -/
def expSearch (s : Str) : Option Str :=
  (List.range (s.length + 1)).findSome? fun i => expTryAt s i

/-- Start aliases of `SUMMARY_PATTERN`; the flag marks the first alternative
`\bSummary`, which alone carries a word boundary. -/
def sumStartAliases : List (Bool × Str) :=
  [(true, "Summary".data), (false, "ABOUT".data), (false, "PROFILE".data),
   (false, "SUMMARY".data), (false, "INTRODUCTION".data), (false, "HEADLINE".data),
   (false, "PROFESSIONAL SUMMARY".data), (false, "About Me".data),
   (false, "PROFESSIONAL SUMMARY:".data), (false, "Synopsis".data),
   (false, "Proﬁle Summary:".data), (false, "Profile Summary:".data),
   (false, "My Projects".data), (false, "Summary".data), (false, "SUMMARY".data),
   (false, "Summary:".data), (false, "CAREER OBJECTIVE :".data),
   (false, "Objectives :".data), (false, "Projects:".data), (false, "Objectives".data),
   (false, "Objective".data), (false, "Profile".data),
   (false, "SUMMARY OF EXPERIENCE".data), (false, "OBJECTIVE".data),
   (false, "CAREER SUMMARY:".data), (false, "ABOUT ME".data), (false, "Objective:".data),
   (false, "P R O F E S S I O N A L   S U M M A R Y".data),
   (false, "CAREER OBJECTIVE:".data), (false, "P R O F I L E".data),
   (false, "Profile Summary & Skills".data), (false, "CAREER OBJECTIVE".data)]

/-- Terminator aliases of `SUMMARY_PATTERN`, in alternation order. -/
def sumEndAliases : List Str :=
  ["CAREER OBJECTIVE".data, "OBJECTIVE".data, "GOAL".data, "Education".data,
   "EXPERIENCE SUMMARY".data, "Current Company Details".data,
   "Projects Undertaken".data, "Experience".data, "Skills".data, "Contact".data,
   "Technical Skills".data, "Technical Expertise:".data,
   "Professional Qualification".data, "EMPLOYMENT HISTORY".data, "Completed".data,
   "EDUCATION".data, "Projects".data, "SKILLS".data, "Languages".data,
   "Current".data, "PROFESSIONAL".data, "WORK EXPERIENCE".data,
   "PROFESSIONAL EXPERIENCE".data, "T E C H N I C A L   S K I L L S".data,
   "C O N T A C T M E".data, "Work Experience".data, "E D U C A T I O N".data,
   "Professional Experience".data, "Skills & Abilities".data,
   "QUALIFICATION DETAILS".data]

/-- The lookahead `(?=\n(?:END1|...|$)\b)` of the summary pattern holds at
position `p` (the trailing `\b` is checked after the chosen alternative). -/
def sumLookAt (s : Str) (p : Nat) : Bool :=
  s.get? p = some '\n' &&
    ((sumEndAliases.any fun e => litAt e (s.drop (p + 1)) && boundaryAt s (p + 1 + e.length))
      || (dollarAt s (p + 1) && boundaryAt s (p + 1)))

/-- Shortest body length whose end satisfies the summary lookahead. -/
def sumFindContent (s : Str) (start : Nat) : Option Nat :=
  (List.range (s.length - start + 1)).find? fun c => sumLookAt s (start + c)

/-- Try one summary start alias at position `i`; the `\n?` after the alias is
greedy, so the with-newline branch is attempted first. -/
def sumTryAlias (s : Str) (i : Nat) (a : Str) : Option Str :=
  if litAt a (s.drop i) then
    let j := i + a.length
    match (if s.get? j = some '\n' then
        (sumFindContent s (j + 1)).map fun c => (s.drop (j + 1)).take c
      else none) with
    | some g => some g
    | none => (sumFindContent s j).map fun c => (s.drop j).take c
  else none

/-- Try every summary start alias, in alternation order, at position `i`. -/
def sumTryAt (s : Str) (i : Nat) : Option Str :=
  sumStartAliases.findSome? fun ba =>
    if ba.1 && !boundaryAt s i then none else sumTryAlias s i ba.2

/-- Leftmost match of `SUMMARY_PATTERN`, returning group 2. -/
def sumSearch (s : Str) : Option Str :=
  (List.range (s.length + 1)).findSome? fun i => sumTryAt s i

/-! ## `codecs.decode(-, "unicode-escape")` on a `str`

Python implicitly encodes the string to UTF-8 bytes and then decodes escape
sequences, interpreting every non-escape byte as the character of the same
code (latin-1 semantics) — so non-ASCII input is mojibake'd, not rejected,
and the only failures are malformed escapes (a trailing backslash, a bad
`\x`/`\u`/`\U`, a `\N` form).  Valid `\N{NAME}` escapes are modelled as
failures too (the name database is out of scope), and escapes producing
surrogate code points fall back to `Char.ofNat`'s default; neither case is
exercised by any theorem below. -/

/-- UTF-8 bytes of a character. -/
def utf8Bytes (c : Char) : List Nat :=
  let n := c.toNat
  if n < 0x80 then [n]
  else if n < 0x800 then [0xC0 + n / 0x40, 0x80 + n % 0x40]
  else if n < 0x10000 then
    [0xE0 + n / 0x1000, 0x80 + n / 0x40 % 0x40, 0x80 + n % 0x40]
  else
    [0xF0 + n / 0x40000, 0x80 + n / 0x1000 % 0x40, 0x80 + n / 0x40 % 0x40, 0x80 + n % 0x40]

/-- The UTF-8 byte sequence of a string, each byte as a latin-1 character. -/
def utf8AsLatin1 (s : Str) : Str := (s.map fun c => (utf8Bytes c).map Char.ofNat).flatten

/-- Hexadecimal digit value. -/
def hexVal (c : Char) : Option Nat :=
  if '0' ≤ c && c ≤ '9' then some (c.toNat - 48)
  else if 'a' ≤ c && c ≤ 'f' then some (c.toNat - 87)
  else if 'A' ≤ c && c ≤ 'F' then some (c.toNat - 55)
  else none

/-- Octal digit test. -/
def isOctChar (c : Char) : Bool := '0' ≤ c && c ≤ '7'

/-- Octal digit value. -/
def octVal (c : Char) : Nat := c.toNat - 48

/-- Escape-processing core of the `unicode_escape` decoder. -/
def ueGo : Str → Except Unit Str
  | [] => Except.ok []
  | c :: rest =>
    if c ≠ '\\' then (ueGo rest).map fun t => c :: t
    else
      match rest with
      | [] => Except.error ()
      | e :: r2 =>
        if e = '\n' then ueGo r2
        else if e = '\\' then (ueGo r2).map fun t => '\\' :: t
        else if e = '\'' then (ueGo r2).map fun t => '\'' :: t
        else if e = '"' then (ueGo r2).map fun t => '"' :: t
        else if e = 'a' then (ueGo r2).map fun t => '\x07' :: t
        else if e = 'b' then (ueGo r2).map fun t => '\x08' :: t
        else if e = 'f' then (ueGo r2).map fun t => '\x0C' :: t
        else if e = 'n' then (ueGo r2).map fun t => '\n' :: t
        else if e = 'r' then (ueGo r2).map fun t => '\r' :: t
        else if e = 't' then (ueGo r2).map fun t => '\t' :: t
        else if e = 'v' then (ueGo r2).map fun t => '\x0B' :: t
        else if isOctChar e then
          match r2 with
          | d2 :: r3 =>
            if isOctChar d2 then
              match r3 with
              | d3 :: r4 =>
                if isOctChar d3 then
                  (ueGo r4).map fun t =>
                    Char.ofNat (64 * octVal e + 8 * octVal d2 + octVal d3) :: t
                else (ueGo (d3 :: r4)).map fun t => Char.ofNat (8 * octVal e + octVal d2) :: t
              | [] => Except.ok [Char.ofNat (8 * octVal e + octVal d2)]
            else (ueGo (d2 :: r3)).map fun t => Char.ofNat (octVal e) :: t
          | [] => Except.ok [Char.ofNat (octVal e)]
        else if e = 'x' then
          match r2 with
          | h1 :: h2 :: r4 =>
            match hexVal h1, hexVal h2 with
            | some a, some b => (ueGo r4).map fun t => Char.ofNat (16 * a + b) :: t
            | _, _ => Except.error ()
          | _ => Except.error ()
        else if e = 'u' then
          match r2 with
          | h1 :: h2 :: h3 :: h4 :: r4 =>
            match hexVal h1, hexVal h2, hexVal h3, hexVal h4 with
            | some a, some b, some c3, some d =>
              (ueGo r4).map fun t => Char.ofNat (4096 * a + 256 * b + 16 * c3 + d) :: t
            | _, _, _, _ => Except.error ()
          | _ => Except.error ()
        else if e = 'U' then
          match r2 with
          | h1 :: h2 :: h3 :: h4 :: h5 :: h6 :: h7 :: h8 :: r4 =>
            match hexVal h1, hexVal h2, hexVal h3, hexVal h4,
                hexVal h5, hexVal h6, hexVal h7, hexVal h8 with
            | some a, some b, some c3, some d, some a2, some b2, some c4, some d2 =>
              let v := ((((((a * 16 + b) * 16 + c3) * 16 + d) * 16 + a2) * 16 + b2) * 16 + c4)
                  * 16 + d2
              if v ≤ 0x10FFFF then (ueGo r4).map fun t => Char.ofNat v :: t
              else Except.error ()
            | _, _, _, _, _, _, _, _ => Except.error ()
          | _ => Except.error ()
        else if e = 'N' then Except.error ()
        else (ueGo r2).map fun t => '\\' :: e :: t

/-- Model of `codecs.decode(s, "unicode-escape")` applied to a `str`:
UTF-8-encode, then escape-decode the byte sequence. -/
def unicodeEscapeDecode (s : Str) : Except Unit Str := ueGo (utf8AsLatin1 s)

/-! ## `extract_summary_text` and `extract_experience_text` (`main_config.py`) -/

/-- The placeholder `"<email masked>"`. -/
def maskEmail : Str := "<email masked>".data

/-- The placeholder `"<phone no. masked>"`. -/
def maskPhone : Str := "<phone no. masked>".data

/-- The email/phone masking block shared by the summary and experience
extractors (replace phone first when both are present). -/
def maskContacts (email phone : Option Str) (t : Str) : Str :=
  match email, phone with
  | some em, some p => pyReplace (pyReplace t p maskPhone) em maskEmail
  | some em, none => pyReplace t em maskEmail
  | none, some p => pyReplace t p maskPhone
  | none, none => t

/-- Embedding of `extract_summary_text`: mask links then contacts, search
`SUMMARY_PATTERN` on the stripped text, strip group 2, decode it with
`unicode_escape` (which can raise), and drop the literal `"\"` and `\""`
sequences.  `Except.error` models the uncaught decode exception. -/
def extract_summary_text (text_content : Str) : Except Unit (Option Str) :=
  let email := extract_email text_content
  let phone := extract_phone text_content
  let links := linkMatches text_content
  let t1 := links.foldl (fun t l => pyReplace t l "<link masked>".data) text_content
  let t2 := maskContacts email phone t1
  match sumSearch (pyStrip t2) with
  | none => Except.ok none
  | some g2 =>
    let summary := pyStrip g2
    if summary.isEmpty then Except.ok none
    else
      match unicodeEscapeDecode summary with
      | Except.error e => Except.error e
      | Except.ok d =>
        if d.isEmpty then Except.ok none
        else Except.ok (some (pyReplace (pyReplace d ('"' :: '\\' :: '"' :: []) [])
          ('\\' :: '"' :: '"' :: []) []))

/-- Embedding of `extract_experience_text`: mask contacts (no link masking),
search `EXPERIENCE_TEXT_PATTERN`, and strip group 2. -/
def extract_experience_text (text_content : Str) : Option Str :=
  let email := extract_email text_content
  let phone := extract_phone text_content
  let t := maskContacts email phone text_content
  match expSearch t with
  | some g2 => some (pyStrip g2)
  | none => none

/-! ## `remove_unrecognized_characters` (`main.py` lines 367-378) -/

/-- Model of `re.sub(r"[^\x00-\x7F]+", " ", -)`: each maximal run of
non-ASCII characters becomes a single space. -/
def subNonAsciiGo (inRun : Bool) : Str → Str
  | [] => []
  | c :: rest =>
    if c.toNat ≤ 127 then c :: subNonAsciiGo false rest
    else if inRun then subNonAsciiGo true rest
    else ' ' :: subNonAsciiGo true rest

/-- Embedding of `remove_unrecognized_characters`: `None` and `""` are falsy
and yield Python `None`; otherwise non-ASCII runs become spaces, newlines
become spaces, and the ends are stripped. -/
def remove_unrecognized_characters (text : Option Str) : Option Str :=
  match text with
  | none => none
  | some t =>
    if t.isEmpty then none
    else some (pyStrip (nlToSpace (subNonAsciiGo false t)))

/-! ## Name resolution (`main.py` lines 308-364, `NAME_PATTERN`)

`NAME_PATTERN = ^(?:.*?(?:Name:\s*)?(?:Mrs\.|Mr\.|Miss|Ms\.)?\s*([A-Za-z]+)\s*([A-Za-z]+(?: [A-Za-z]+)*))\n?`

The `^` anchor (no `MULTILINE`) restricts the lazy prefix `.*?` to the first
line; the prefix length is scanned shortest-first.  Nothing after group 2
can fail (`\n?` is optional and the pattern end is unanchored), so greedy
runs only backtrack where a following atom can reject, which happens in one
place: when no letter follows group 1, group 1 cedes its last letter to
group 2. -/

/-- Greedy `(?: [A-Za-z]+)*`: consume `" <letters>"` groups while possible.
Each iteration consumes at least two characters, so fuel `s.length`
suffices. -/
def starWordsGo : Nat → Str → Str × Str
  | 0, s => ([], s)
  | fuel + 1, s =>
    match s with
    | ' ' :: rest =>
      let r := rest.takeWhile isLetterChar
      if r.isEmpty then ([], s)
      else
        let p := starWordsGo fuel (rest.drop r.length)
        (' ' :: (r ++ p.1), p.2)
    | _ => ([], s)

/-- Greedy `(?: [A-Za-z]+)*` at the head of `s`. -/
def starWords (s : Str) : Str × Str := starWordsGo s.length s

/-- Match `\s*([A-Za-z]+)\s*([A-Za-z]+(?: [A-Za-z]+)*)` at the head of `s`,
returning the two capture groups. -/
def nameCore (s : Str) : Option (Str × Str) :=
  let s1 := s.dropWhile isSpaceChar
  let r := s1.takeWhile isLetterChar
  if r.isEmpty then none
  else
    let rest := s1.drop r.length
    let rest2 := rest.dropWhile isSpaceChar
    let r2 := rest2.takeWhile isLetterChar
    if !r2.isEmpty then
      some (r, r2 ++ (starWords (rest2.drop r2.length)).1)
    else if 2 ≤ r.length then
      some (r.take (r.length - 1), r.drop (r.length - 1) ++ (starWords rest).1)
    else none

/-- The honorific alternation `Mrs\.|Mr\.|Miss|Ms\.`, in order. -/
def honorifics : List Str := ["Mrs.".data, "Mr.".data, "Miss".data, "Ms.".data]

/-- Match `(?:Mrs\.|Mr\.|Miss|Ms\.)?` followed by the name core (each
honorific alternative tried before the empty branch). -/
def nameAfterHead (t : Str) : Option (Str × Str) :=
  match honorifics.findSome? fun h => if litAt h t then nameCore (t.drop h.length) else none with
  | some g => some g
  | none => nameCore t

/-- Match `(?:Name:\s*)?` (present branch first) then the honorific and
core. -/
def nameTryAt (s : Str) : Option (Str × Str) :=
  match (if litAt "Name:".data s then
      nameAfterHead ((s.drop ("Name:".data.length)).dropWhile isSpaceChar)
    else none) with
  | some g => some g
  | none => nameAfterHead s

/-- Scan of the lazy prefix `.*?` (shortest first); the prefix may not cross
a newline because `.` excludes `'\n'`. -/
def nameSearchGo : Str → Option (Str × Str)
  | [] => nameTryAt []
  | c :: rest =>
    match nameTryAt (c :: rest) with
    | some g => some g
    | none => if c = '\n' then none else nameSearchGo rest

/-- Model of `NAME_PATTERN.search`, returning the two groups. -/
def nameSearch (s : Str) : Option (Str × Str) := nameSearchGo s

/-- Model of `re.sub(r"\bLinkedIn\b", "", -, re.IGNORECASE)`: scan left to
right tracking the word-ness of the previous character. -/
def subLinkedInGo : Nat → Bool → Str → Str
  | 0, _, s => s
  | fuel + 1, prevWord, s =>
    match s with
    | [] => []
    | c :: rest =>
      if (prevWord != isWordChar c) && ciAt "linkedin".data s
          && !isWordOpt (s.drop 8).head? then
        subLinkedInGo fuel true (s.drop 8)
      else c :: subLinkedInGo fuel (isWordChar c) rest

/-- All-occurrence deletion of `\bLinkedIn\b` (case-insensitive). -/
def subLinkedIn (s : Str) : Str := subLinkedInGo s.length false s

/-- Model of `re.sub(r"\b\w+\.vercel\.app\b", "", -, re.IGNORECASE)`: the
greedy `\w+` must take a maximal run (a shorter run is followed by a word
character, rejecting `\.`), so a match is a maximal word run followed by the
literal `".vercel.app"` and a boundary. -/
def subVercelGo : Nat → Bool → Str → Str
  | 0, _, s => s
  | fuel + 1, prevWord, s =>
    match s with
    | [] => []
    | c :: rest =>
      let run := s.takeWhile isWordChar
      let after := s.drop run.length
      if (prevWord != isWordChar c) && isWordChar c && litAt ".vercel.app".data after
          && !isWordOpt (after.drop 11).head? then
        subVercelGo fuel true (after.drop 11)
      else c :: subVercelGo fuel (isWordChar c) rest

/-- All-occurrence deletion of `\b\w+\.vercel\.app\b`. -/
def subVercel (s : Str) : Str := subVercelGo s.length false s

/-- The en-dash removed next to designation strings. -/
def endash : Str := ['–']

/-- The decision tree applied to the `NAME_PATTERN` match (`main.py` lines
343-364), returning `(name, surname)`. -/
def nameDecision : Option (Str × Str) → Str × Str
  | some (g1, g2) =>
    if g1 ≠ [] ∧ g2 ≠ [] ∧ 2 < (pyStrip g1).length ∧ (pyStrip g1).length < 50
        ∧ 2 < (pyStrip g2).length then
      (pyStrip g1, if g2.contains '\n' then [] else pyStrip g2)
    else if g1 ≠ [] ∧ (pyStrip g2).length ≤ 2 then
      (pyStrip g1 ++ (if g2 ≠ [] ∧ (pyStrip g2).length ≤ 2 then pyStrip g2 else []), [])
    else ([], [])
  | none => ([], [])

/-- Embedding of `extract_name`: designation removal (the whole cleaning
block runs once per matched designation, so an empty designation list skips
it entirely), noise stripping, phone removal, then the name pattern. -/
def extract_name (text_content : Str) (json_data : Option (List DesigEntry)) :
    Except Unit (Str × Str) :=
  match check_and_collect_designation_ids text_content json_data with
  | Except.error e => Except.error e
  | Except.ok (designations, _) =>
    let email := extract_email text_content
    let cleaned0 := designations.foldl (fun ct item_ =>
      let ct1 := pyStrip (pyReplace (pyReplace ct item_ []) endash [])
      let ct2 :=
        match email with
        | some em => pyStrip (pyReplace (pyReplace ct1 em []) [':'] [])
        | none => ct1
      joinNl ((splitNl ct2).map pyStrip)) text_content
    let cleaned1 := subVercel (subLinkedIn cleaned0)
    let cleaned2 := pyReplace (pyReplace cleaned1 ['|'] [' ']) "Resume".data []
    let cleaned3 :=
      match extract_phone cleaned2 with
      | some p => pyStrip (pyReplace (pyReplace cleaned2 p []) ['+'] [])
      | none => cleaned2
    Except.ok (nameDecision (nameSearch cleaned3))

/-! ## Record assembly (`check_titles_and_extract_info`, `main.py` 381-456) -/

/-- The single experience entry of the output record. -/
structure ExperienceEntry where
  title : Str
  amount_of_experience : ℚ
  duration_string : Str
  summary : Str
deriving DecidableEq

/-- The record written as `<document>_extracted_info.json`; its fields are
exactly the JSON keys, so every key is present by construction and every
field carries the stated type. -/
structure ExtractedRecord where
  name : Str
  email : Str
  phone : Str
  skills : List Str
  designation : List Str
  experience : List ExperienceEntry
  work_experience : Str
deriving DecidableEq

/-- Embedding of `check_titles_and_extract_info` on the text read from the
document file.  `Except.error` models an uncaught exception: iterating a
`None` designation list, the summary decode failure, and
`sorted(list(set(None)))` when the skill matcher returned `None` (which it
does for an absent or empty skill list).  `x or default` coalescing is the
identity except on falsy values, spelled out where it matters. -/
def check_titles_and_extract_info (file_content : Str)
    (json_skills : Option (List SkillEntry)) (json_designations : Option (List DesigEntry)) :
    Except Unit ExtractedRecord :=
  match extract_name file_content json_designations with
  | Except.error e => Except.error e
  | Except.ok (firstName, lastName) =>
    let name := nlToSpace (pyStrip (firstName ++ ' ' :: lastName))
    let email := extract_email file_content
    let phone := extract_phone file_content
    match extract_summary_text file_content with
    | Except.error e => Except.error e
    | Except.ok summary =>
      let ad := extract_experience_duration file_content
      let skills := check_and_collect_skills file_content json_skills
      match check_and_collect_designation_ids file_content json_designations with
      | Except.error e => Except.error e
      | Except.ok (designations, designation_title) =>
        let work_experience := extract_experience_text file_content
        match skills with
        | none => Except.error ()
        | some skillList =>
          Except.ok
            { name := pyTitleCase name
              email := email.getD []
              phone := phone.getD []
              skills := pySortedSet skillList
              designation := designations
              experience := [{
                title := designation_title
                amount_of_experience := if ad.1 = 0 then 0 else ad.1
                duration_string := (remove_unrecognized_characters (some ad.2)).getD []
                summary := (remove_unrecognized_characters summary).getD [] }]
              work_experience := (remove_unrecognized_characters work_experience).getD [] }

/-! ## Reference-data synchronization (`main.py` lines 216-305, 556-590) -/

/-- JSON values, the entries of the fetched reference lists.  Arrays and
objects are encoded as cons chains (`arrCons`/`objCons`) so that equality is
derivable; an ill-formed tail is simply part of the tree and needs no
separate treatment. -/
inductive Json where
  | null : Json
  | bool (b : Bool) : Json
  | num (n : Int) : Json
  | str (s : String) : Json
  | arrNil : Json
  | arrCons (head : Json) (tail : Json) : Json
  | objNil : Json
  | objCons (key : String) (value : Json) (tail : Json) : Json
deriving DecidableEq

/-- Insert a field into an object chain already sorted by key (stable
ascending insertion). -/
def objInsert (k : String) (v : Json) : Json → Json
  | .objCons k2 v2 t =>
    if strLe k.data k2.data then .objCons k v (.objCons k2 v2 t)
    else .objCons k2 v2 (objInsert k v t)
  | j => .objCons k v j

/-- Canonical form modelling `json.dumps(item, sort_keys=True)`: object keys
are sorted recursively, so two values have the same canonical form exactly
when they have the same dump and hence the same MD5 content hash. -/
def canonJson : Json → Json
  | .null => .null
  | .bool b => .bool b
  | .num n => .num n
  | .str s => .str s
  | .arrNil => .arrNil
  | .arrCons h t => .arrCons (canonJson h) (canonJson t)
  | .objNil => .objNil
  | .objCons k v t => objInsert k (canonJson v) (canonJson t)

/-- Loop of `remove_duplicates`, carrying the set of seen content hashes. -/
def removeDupGo (seen : List Json) : List Json → List Json
  | [] => []
  | item :: rest =>
    let item_hash := canonJson item
    if item_hash ∈ seen then removeDupGo seen rest
    else item :: removeDupGo (item_hash :: seen) rest

/-- Embedding of `remove_duplicates`: first-seen-wins deduplication by
content hash. -/
def remove_duplicates (data : List Json) : List Json := removeDupGo [] data

/-- Embedding of `save_url_as_json_async` over an abstract fetch outcome and
cache state.  `fetch = Except.error` is a transport error
(`httpx.RequestError`): the handler prints and the function returns `None`
without consulting the cache.  On a non-200 status the cache, if present, is
loaded and deduplicated.  On a 200 response the body is written to the cache
file and immediately hashed back, so the two MD5 hashes always agree and the
freshly written data is loaded and deduplicated (the `response.json()`
re-dump branch is unreachable in this sequential model, and would produce
the same value). -/
def save_url_as_json_async (fetch : Except Unit (Nat × List Json))
    (cache : Option (List Json)) : Option (List Json) :=
  match fetch with
  | Except.error _ => none
  | Except.ok (status, content) =>
    if status ≠ 200 then
      match cache with
      | some data => some (remove_duplicates data)
      | none => none
    else some (remove_duplicates content)

/-- The designation retry loop of `extract_text`: poll until a fetch returns
a non-absent list.  A finite trace of fetch outcomes models the unbounded
`while acquired_designation_data is None` loop; an all-`none` trace (the
loop never exiting) yields `none`. -/
def retryUntilSome : List (Option α) → Option α
  | [] => none
  | some x :: _ => some x
  | none :: rest => retryUntilSome rest

/-- Reference-data acquisition and dispatch logic of `extract_text`
(`main.py` lines 556-590): compute `skill_titles` (empty when the skill
fetch failed), poll for designation data, and call
`check_titles_and_extract_info` — returning its arguments here — only when
both title lists are non-empty; otherwise no extraction happens and no
record is produced. -/
def extract_text_refdata (acquired_skill_data : Option (List SkillEntry))
    (designation_fetches : List (Option (List DesigEntry))) :
    Option (Option (List SkillEntry) × List DesigEntry) :=
  let skill_titles : List Str :=
    match acquired_skill_data with
    | some l => if l.isEmpty then [] else l.map SkillEntry.title
    | none => []
  match retryUntilSome designation_fetches with
  | none => none
  | some acquired_designation_data =>
    let designation_titles := acquired_designation_data.map DesigEntry.designation
    if !skill_titles.isEmpty && !designation_titles.isEmpty then
      some (acquired_skill_data, acquired_designation_data)
    else none

/-! ## Support lemmas -/

/-- Equality of `Except` values is decidable when it is on both sides. -/
instance exceptDecEq {ε : Type u} {α : Type v} [DecidableEq ε] [DecidableEq α] :
    DecidableEq (Except ε α) := fun a b =>
  match a, b with
  | Except.ok x, Except.ok y =>
    match decEq x y with
    | isTrue h => isTrue (h ▸ rfl)
    | isFalse h => isFalse fun hc => h (Except.ok.inj hc)
  | Except.error x, Except.error y =>
    match decEq x y with
    | isTrue h => isTrue (h ▸ rfl)
    | isFalse h => isFalse fun hc => h (Except.error.inj hc)
  | Except.ok _, Except.error _ => isFalse fun hc => Except.noConfusion hc
  | Except.error _, Except.ok _ => isFalse fun hc => Except.noConfusion hc

theorem removeDupGo_idem (seen : List Json) (l : List Json) :
    removeDupGo seen (removeDupGo seen l) = removeDupGo seen l := by
  induction l generalizing seen with
  | nil => rfl
  | cons x xs ih =>
    simp only [removeDupGo]
    by_cases hx : canonJson x ∈ seen
    · simp only [hx, if_pos]
      exact ih seen
    · simp only [hx, if_neg, not_false_eq_true, removeDupGo, ite_false, ite_true,
        List.mem_cons, true_or]
      rw [ih (canonJson x :: seen)]

theorem firstWordMatchIdx_isSome_iff (pat s : Str) :
    (firstWordMatchIdx pat s).isSome = true ↔ hasWordMatch pat s = true := by
  unfold firstWordMatchIdx hasWordMatch
  rw [List.find?_isSome, List.any_eq_true]

theorem retryUntilSome_all_none (l : List (Option α)) (h : ∀ o ∈ l, o = none) :
    retryUntilSome l = none := by
  induction l with
  | nil => rfl
  | cons o rest ih =>
    have ho := h o (List.mem_cons_self o rest)
    subst ho
    simp only [retryUntilSome]
    exact ih fun o2 h2 => h o2 (List.mem_cons_of_mem _ h2)

theorem extract_name_ok (text : Str) (ds : List DesigEntry) :
    ∃ p, extract_name text (some ds) = Except.ok p := ⟨_, rfl⟩

theorem check_and_collect_skills_cons (text : Str) (e : SkillEntry) (l : List SkillEntry) :
    check_and_collect_skills text (some (e :: l))
      = some (((e :: l).map SkillEntry.title).filter fun t => hasWordMatch t text) := rfl

theorem parseDecimal_nonneg (s : Str) : 0 ≤ parseDecimal s := by
  unfold parseDecimal
  positivity

theorem duration_fst_nonneg (text : Str) : 0 ≤ (extract_experience_duration text).1 := by
  unfold extract_experience_duration
  cases h : durationSearch text with
  | none => simp
  | some p =>
    obtain ⟨g1, g0⟩ := p
    simpa using parseDecimal_nonneg g1

/-- Every string produced by the record's cleanup passes has only ASCII
characters and no newline. -/
def cleanStr (s : Str) : Prop := ∀ c ∈ s, c.toNat ≤ 127 ∧ c ≠ '\n'

theorem subNonAsciiGo_ascii (b : Bool) (t : Str) :
    ∀ c ∈ subNonAsciiGo b t, c.toNat ≤ 127 := by
  induction t generalizing b with
  | nil => intro c hc; cases hc
  | cons x xs ih =>
    intro c hc
    simp only [subNonAsciiGo] at hc
    by_cases hx : x.toNat ≤ 127
    · rw [if_pos hx] at hc
      rcases List.mem_cons.mp hc with rfl | hc2
      · exact hx
      · exact ih false c hc2
    · rw [if_neg hx] at hc
      cases b with
      | true => exact ih true c (by simpa using hc)
      | false =>
        rcases List.mem_cons.mp (by simpa using hc) with rfl | hc2
        · decide
        · exact ih true c hc2

theorem nlToSpace_mem (s : Str) : ∀ c ∈ nlToSpace s, c ≠ '\n' ∧ ∃ d ∈ s, c = d ∨ c = ' ' := by
  intro c hc
  unfold nlToSpace at hc
  rcases List.mem_map.mp hc with ⟨d, hd, hdc⟩
  by_cases hnl : d = '\n'
  · subst hnl
    simp only [if_pos rfl] at hdc
    subst hdc
    exact ⟨by decide, ⟨_, hd, Or.inr rfl⟩⟩
  · rw [if_neg hnl] at hdc
    subst hdc
    exact ⟨hnl, ⟨d, hd, Or.inl rfl⟩⟩

theorem pyStrip_subset (s : Str) : pyStrip s ⊆ s := by
  intro c hc
  unfold pyStrip at hc
  rw [List.mem_reverse] at hc
  have h1 := (List.dropWhile_sublist (l := (s.dropWhile isSpaceChar).reverse) isSpaceChar).subset hc
  rw [List.mem_reverse] at h1
  exact (List.dropWhile_sublist (l := s) isSpaceChar).subset h1

theorem remove_unrecognized_clean (o : Option Str) :
    cleanStr ((remove_unrecognized_characters o).getD []) := by
  intro c hc
  cases o with
  | none => cases hc
  | some t =>
    simp only [remove_unrecognized_characters] at hc
    by_cases ht : t.isEmpty
    · rw [if_pos ht] at hc; simp at hc
    · rw [if_neg ht] at hc
      simp only [Option.getD_some] at hc
      have h1 := pyStrip_subset _ hc
      obtain ⟨hnl, d, hd, hcd⟩ := nlToSpace_mem _ c h1
      refine ⟨?_, hnl⟩
      rcases hcd with rfl | rfl
      · exact subNonAsciiGo_ascii false t c hd
      · decide

/-- Inversion of a successful record assembly: the skill matcher returned a
real list, the summary decode succeeded, and the cleaned fields are exactly
the stored ones. -/
theorem check_titles_ok_inv (text : Str) (jsk : Option (List SkillEntry))
    (jds : Option (List DesigEntry)) (r : ExtractedRecord)
    (h : check_titles_and_extract_info text jsk jds = Except.ok r) :
    (∃ sl, check_and_collect_skills text jsk = some sl ∧ r.skills = pySortedSet sl) ∧
    r.work_experience
      = (remove_unrecognized_characters (extract_experience_text text)).getD [] ∧
    ∃ s, extract_summary_text text = Except.ok s ∧
      r.experience.map ExperienceEntry.duration_string
        = [(remove_unrecognized_characters (some (extract_experience_duration text).2)).getD []] ∧
      r.experience.map ExperienceEntry.summary
        = [(remove_unrecognized_characters s).getD []] := by
  unfold check_titles_and_extract_info at h
  cases h1 : extract_name text jds with
  | error e => rw [h1] at h; cases h
  | ok p =>
    obtain ⟨fn, ln⟩ := p
    rw [h1] at h
    cases h2 : extract_summary_text text with
    | error e => rw [h2] at h; cases h
    | ok s =>
      rw [h2] at h
      cases h3 : check_and_collect_designation_ids text jds with
      | error e => rw [h3] at h; cases h
      | ok q =>
        obtain ⟨dsg, dtt⟩ := q
        rw [h3] at h
        cases h4 : check_and_collect_skills text jsk with
        | none => rw [h4] at h; cases h
        | some sl =>
          rw [h4] at h
          simp only at h
          cases h
          exact ⟨⟨sl, rfl, rfl⟩, rfl, s, rfl, rfl, rfl⟩

/-! ## Claim theorems -/

/-- C8: deduplication by content hash is idempotent — running
`remove_duplicates` twice yields the same list as running it once. -/
theorem C8_remove_duplicates_idempotent (l : List Json) :
    remove_duplicates (remove_duplicates l) = remove_duplicates l :=
  removeDupGo_idem [] l

/-- C10: the two matchers treat an absent reference list asymmetrically:
`check_and_collect_skills` returns Python `None` (without raising) for an
absent or empty skill list, while `check_and_collect_designation_ids`
raises (`Except.error`) on an absent designation list, and so does
`extract_name`, which calls it. -/
theorem C10_matcher_absence_asymmetry (text : Str) :
    check_and_collect_skills text none = none ∧
    check_and_collect_skills text (some []) = none ∧
    check_and_collect_designation_ids text none = Except.error () ∧
    extract_name text none = Except.error () :=
  ⟨rfl, rfl, rfl, rfl⟩

/-- C5: the designation matcher returns exactly the titles with at least one
case-insensitive whole-word occurrence (titles without an occurrence are
excluded — every returned title has a real earliest offset, none is assigned
the `+infinity` default), sorted ascending by the start offset of their
earliest occurrence, and the primary title is the head of the sorted
sequence, or `""` when nothing matched. -/
theorem C5_designation_matcher (text : Str) (entries : List DesigEntry) :
    check_and_collect_designation_ids text (some entries)
      = Except.ok (designationCore text entries) ∧
    (∀ t, t ∈ (designationCore text entries).1 ↔
      t ∈ entries.map DesigEntry.designation ∧ hasWordMatch t text = true) ∧
    (∀ t ∈ (designationCore text entries).1, (desigKey text t).isSome = true) ∧
    (designationCore text entries).1.Pairwise
      (fun a b => keyLe (desigKey text a) (desigKey text b) = true) ∧
    (designationCore text entries).2 = (designationCore text entries).1.headD [] := by
  refine ⟨rfl, ?_, ?_, ?_, rfl⟩
  · intro t
    unfold designationCore
    simp only [mem_sortBy, List.mem_filter]
  · intro t ht
    unfold designationCore at ht
    simp only [mem_sortBy, List.mem_filter] at ht
    exact (firstWordMatchIdx_isSome_iff t text).mpr ht.2
  · exact pairwise_sortBy _
      (fun x y => keyLe_total (desigKey text x) (desigKey text y))
      (fun x y z => keyLe_trans (desigKey text x) (desigKey text y) (desigKey text z)) _

/-- C3 (amended): on a non-2xx HTTP response, a present cache is loaded and
deduplicated, and an absent cache yields an absent result; but on a
transport error the operation returns an absent result even when a cache
exists (the `httpx.RequestError` handler falls through to `return None`
without consulting the cache). -/
theorem C3_fetch_failure_behaviour (status : Nat) (content cdata : List Json)
    (hs : status ≠ 200) :
    save_url_as_json_async (Except.error ()) (some cdata) = none ∧
    save_url_as_json_async (Except.ok (status, content)) (some cdata)
      = some (remove_duplicates cdata) ∧
    save_url_as_json_async (Except.ok (status, content)) none = none := by
  refine ⟨rfl, ?_, ?_⟩ <;> simp [save_url_as_json_async, hs]

/-- C3 witness: transport error with a cache yields `none`; a 404 with a
cache yields the deduplicated cache; a 404 without a cache yields `none`. -/
theorem C3_fetch_failure_behaviour_witness :
    save_url_as_json_async (Except.error ()) (some [Json.null]) = none ∧
    save_url_as_json_async (Except.ok (404, [])) (some [Json.null])
      = some (remove_duplicates [Json.null]) ∧
    save_url_as_json_async (Except.ok (404, [])) none = none :=
  C3_fetch_failure_behaviour 404 [] [Json.null] (by decide)

/-- C3 counterexample: the claim says a transport error falls back to an
existing cache (yielding the deduplicated cache list); the code returns an
absent result instead. -/
theorem C3_transport_error_no_fallback :
    save_url_as_json_async (Except.error ()) (some [Json.null]) = none ∧
    (none : Option (List Json)) ≠ some (remove_duplicates [Json.null]) := by
  exact ⟨rfl, by decide⟩

/-- C6 (amended): when the skill fetch and cache both fail, the skill title
list is empty and `extract_text` skips extraction entirely — no record is
produced (rather than a record with empty `skills`); and when every
designation fetch fails, the retry loop never completes, so again nothing is
produced. -/
theorem C6_empty_reference_skips_extraction (dfs : List (Option (List DesigEntry))) :
    extract_text_refdata none dfs = none ∧
    ((∀ o ∈ dfs, o = none) →
      ∀ sf : Option (List SkillEntry), extract_text_refdata sf dfs = none) := by
  constructor
  · unfold extract_text_refdata
    cases retryUntilSome dfs with
    | none => rfl
    | some d => simp
  · intro hall sf
    unfold extract_text_refdata
    rw [retryUntilSome_all_none dfs hall]

/-- C6 witness: with a failed skill fetch and an available designation list,
and with any skill data but an all-failing designation trace, no extraction
call is made. -/
theorem C6_empty_reference_skips_extraction_witness :
    extract_text_refdata none [some [⟨"Engineer".data⟩]] = none ∧
    extract_text_refdata (some [⟨"React".data⟩]) [none] = none :=
  ⟨(C6_empty_reference_skips_extraction [some [⟨"Engineer".data⟩]]).1,
   (C6_empty_reference_skips_extraction [none]).2 (by simp) (some [⟨"React".data⟩])⟩

/-- C6 counterexample: the claim says that when the skill list fetch and
cache both fail a fully shaped record is still produced with empty `skills`;
in the code the guard `if skill_titles and designation_titles` is false, so
`check_titles_and_extract_info` is never invoked (`none` here means no
extraction call and no record for the document). -/
theorem C6_skill_failure_produces_nothing :
    extract_text_refdata none [some [⟨"Engineer".data⟩]] = none := rfl

/-- Claim-side normalization stated by the (amended) specification: strip
spaces, hyphens and newlines from the matched span. -/
def phoneStripSpec (m : Str) : Str := m.filter fun c => !(c = '-' || c = ' ' || c = '\n')

/-- Claim-side rendering stated by the (amended) specification: when more
than ten characters remain, everything except the last ten characters,
then a space, then the last ten characters taken from the right. -/
def phoneRenderSpec (d : Str) : Str :=
  if d.length ≤ 10 then d
  else (d.reverse.drop 10).reverse ++ ' ' :: (d.reverse.take 10).reverse

/-- C2 (amended): `extract_phone` is the leftmost phone match on the
pincode-cleansed text, with spaces, hyphens and newlines stripped from the
span (a leading `+` is kept), and a space inserted before the last ten
characters when more than ten remain; `"+91 9876543210"` therefore yields
`"+91 9876543210"` (the `+` intact) and `"9876543210"` yields itself. -/
theorem C2_phone_normalization (text : Str) :
    extract_phone text
      = (phoneSearch (pincodeRemoved text)).map (fun m => phoneRenderSpec (phoneStripSpec m)) ∧
    extract_phone "+91 9876543210".data = some "+91 9876543210".data ∧
    extract_phone "9876543210".data = some "9876543210".data := by
  refine ⟨?_, by decide, by decide⟩
  unfold extract_phone
  cases hm : phoneSearch (pincodeRemoved text) with
  | none => rfl
  | some m =>
    simp only [Option.map_some']
    unfold phoneRenderSpec phoneStripSpec
    set d := m.filter fun c => !(c = '-' || c = ' ' || c = '\n') with hd
    by_cases hlen : 10 < d.length
    · rw [if_pos hlen, if_neg (by omega)]
      have h1 : d.take (d.length - 10) = (d.reverse.drop 10).reverse := by
        have h := List.reverse_take (l := d) (n := d.length - 10)
        rw [show d.length - (d.length - 10) = 10 by omega] at h
        rw [← h, List.reverse_reverse]
      have h2 : d.drop (d.length - 10) = (d.reverse.take 10).reverse := by
        have h := List.reverse_take (l := d.reverse) (n := 10)
        rw [List.length_reverse, List.reverse_reverse] at h
        exact h.symm
      rw [h1, h2]
    · rw [if_neg hlen, if_pos (by omega)]

/-- C2 counterexample: the claim's first example says `"+91 9876543210"`
yields `"91 9876543210"`; the code keeps the `+` (only `"-"`, `" "` and
`"\n"` are stripped from the span), yielding `"+91 9876543210"`. -/
theorem C2_plus_sign_kept :
    extract_phone "+91 9876543210".data = some "+91 9876543210".data ∧
    some "+91 9876543210".data ≠ some "91 9876543210".data := by decide

/-- C7 (amended): `extract_experience_duration` returns, for the leftmost
occurrence of the duration pattern, the numeric value of its number group
and the literal matched substring with newlines replaced by spaces, and
`(0, "0")` when there is no occurrence; the unit word is matched with only
its first letter case-insensitive (`Years` matches, `YEARS` does not). -/
theorem C7_experience_duration (text : Str) :
    (extract_experience_duration text
      = match durationSearch text with
        | some (g1, g0) => (parseDecimal g1, nlToSpace g0)
        | none => (0, ['0'])) ∧
    durationSearch "3 years".data = some ("3".data, "3 years".data) ∧
    parseDecimal "3".data = 3 ∧
    durationSearch "2.5+ Years".data = some ("2.5".data, "2.5+ Years".data) ∧
    parseDecimal "2.5".data = 5 / 2 ∧
    durationSearch "7 months".data = some ("7".data, "7 months".data) ∧
    durationSearch "4\nYears of work".data
      = some ("4".data, '4' :: '\n' :: 'Y' :: 'e' :: 'a' :: 'r' :: 's' :: []) ∧
    nlToSpace ('4' :: '\n' :: 'Y' :: 'e' :: 'a' :: 'r' :: 's' :: []) = "4 Years".data ∧
    durationSearch "no duration here".data = none := by
  refine ⟨rfl, by decide, ?_, by decide, ?_, by decide, by decide, by decide, by decide⟩
  · simp only [parseDecimal]
    rw [show List.takeWhile (fun c => c != '.') "3".data = ['3'] from rfl,
      show List.dropWhile (fun c => c != '.') "3".data = [] from rfl,
      show digitsToNat ['3'] = 3 from rfl]
    norm_num [digitsToNat]
  · simp only [parseDecimal]
    rw [show List.takeWhile (fun c => c != '.') "2.5".data = ['2'] from rfl,
      show List.dropWhile (fun c => c != '.') "2.5".data = ('.' :: '5' :: []) from rfl,
      show digitsToNat ['2'] = 2 from rfl,
      show List.drop 1 ('.' :: '5' :: []) = ['5'] from rfl,
      show digitsToNat ['5'] = 5 from rfl]
    norm_num

/-- C7 counterexample: the claim says the unit word is case-insensitive, so
`"5 YEARS"` would produce the matched substring `"5 YEARS"`; the pattern
`[yY]ears|[yY]ear|[mM]onths?` rejects `"YEARS"`, no match is found, and the
default string `"0"` is returned. -/
theorem C7_unit_not_fully_case_insensitive :
    durationSearch "5 YEARS".data = none ∧
    (extract_experience_duration "5 YEARS".data).2 = "0".data ∧
    "0".data ≠ "5 YEARS".data := by
  refine ⟨by decide, rfl, by decide⟩

/-- C1 (amended): for every input text whose summary section (when present)
survives escape decoding, every non-absent **non-empty** skill list and
every non-absent designation list, record assembly succeeds and produces a
fully shaped record — all seven keys are present with their stated types by
construction of `ExtractedRecord`, `experience` is a singleton list, and its
`amount_of_experience` is a non-negative number.  (With an *empty* skill
list the skill matcher returns `None` and `sorted(list(set(None)))`
raises, so no record is produced — see the counterexample.) -/
theorem C1_record_shape_totality (text : Str) (sk : List SkillEntry) (ds : List DesigEntry)
    (hsk : sk ≠ []) (hsum : (extract_summary_text text).isOk = true) :
    ∃ r, check_titles_and_extract_info text (some sk) (some ds) = Except.ok r ∧
      r.experience.length = 1 ∧ ∀ e ∈ r.experience, 0 ≤ e.amount_of_experience := by
  obtain ⟨s, hs⟩ : ∃ s, extract_summary_text text = Except.ok s := by
    cases h : extract_summary_text text with
    | error e => rw [h] at hsum; exact Bool.noConfusion hsum
    | ok v => exact ⟨v, rfl⟩
  obtain ⟨e1, l1, rfl⟩ : ∃ e1 l1, sk = e1 :: l1 := by
    cases sk with
    | nil => exact absurd rfl hsk
    | cons a l => exact ⟨a, l, rfl⟩
  unfold check_titles_and_extract_info
  rw [hs]
  refine ⟨_, rfl, rfl, ?_⟩
  intro e he
  simp only [List.mem_singleton] at he
  subst he
  simp only []
  split
  · exact le_refl 0
  · exact duration_fst_nonneg text

/-- C1 witness: the empty text with a one-element skill list and an empty
designation list assembles a record with a singleton experience list and a
non-negative amount. -/
theorem C1_record_shape_totality_witness :
    ∃ r, check_titles_and_extract_info [] (some [⟨"X".data⟩]) (some []) = Except.ok r ∧
      r.experience.length = 1 ∧ ∀ e ∈ r.experience, 0 ≤ e.amount_of_experience :=
  C1_record_shape_totality [] [⟨"X".data⟩] [] (by decide) (by decide)

/-- C1 counterexample: the claim covers every non-absent skill list, and the
empty list is non-absent; with it `check_and_collect_skills` returns `None`
(Python `if json_data:` is falsy for `[]`), `sorted(list(set(None)))` raises
`TypeError`, and no record is produced even for the empty text. -/
theorem C1_empty_skill_list_raises :
    (check_titles_and_extract_info [] (some []) (some [])).toOption = none := by decide

/-- C4 (amended): whenever a record is assembled from a non-absent,
non-empty skill list, its `skills` field is exactly the titles with a
case-insensitive whole-word occurrence in the text, deduplicated **as exact
strings** (no case folding) and sorted by code point — so matching
`["React", "react", "Node"]` against text containing `"React"` and `"Node"`
stores `["Node", "React", "react"]`, not `["Node", "React"]`. -/
theorem C4_skills_field_normalized (text : Str) (sk : List SkillEntry)
    (jds : Option (List DesigEntry)) (r : ExtractedRecord) (hsk : sk ≠ [])
    (h : check_titles_and_extract_info text (some sk) jds = Except.ok r) :
    r.skills = sortBy strLe
      (((sk.map SkillEntry.title).filter fun t => hasWordMatch t text).dedup) := by
  obtain ⟨⟨sl, hsl, hrs⟩, -, -⟩ := check_titles_ok_inv text (some sk) jds r h
  obtain ⟨e1, l1, rfl⟩ : ∃ e1 l1, sk = e1 :: l1 := by
    cases sk with
    | nil => exact absurd rfl hsk
    | cons a l => exact ⟨a, l, rfl⟩
  rw [check_and_collect_skills_cons] at hsl
  injection hsl with hsl2
  rw [hrs, ← hsl2]
  rfl

/-- The record assembled from `"React and Node"` with the skill list
`["React", "react", "Node"]` and an empty designation list. -/
def reactRecord : ExtractedRecord :=
  { name := "React And Node".data
    email := []
    phone := []
    skills := ["Node".data, "React".data, "react".data]
    designation := []
    experience := [{ title := [], amount_of_experience := 0,
                     duration_string := "0".data, summary := [] }]
    work_experience := [] }

/-- C4 witness: the concrete matching run from the claim's example, with the
stored field equal to the exact-string dedup-and-sort of the matched
titles. -/
theorem C4_skills_field_normalized_witness :
    reactRecord.skills = sortBy strLe
      ((([⟨"React".data⟩, ⟨"react".data⟩, ⟨"Node".data⟩].map SkillEntry.title).filter
        fun t => hasWordMatch t "React and Node".data).dedup) :=
  C4_skills_field_normalized "React and Node".data
    [⟨"React".data⟩, ⟨"react".data⟩, ⟨"Node".data⟩] (some []) reactRecord
    (by decide) (by decide)

/-- C4 counterexample: the claim's example says the stored skill list is
exactly `["Node", "React"]`; the `set()` dedup does not case-fold, so the
code stores `["Node", "React", "react"]`. -/
theorem C4_case_variants_both_kept :
    (check_titles_and_extract_info "React and Node".data
        (some [⟨"React".data⟩, ⟨"react".data⟩, ⟨"Node".data⟩]) (some [])).toOption.map
      ExtractedRecord.skills = some ["Node".data, "React".data, "react".data] ∧
    some ["Node".data, "React".data, "react".data]
      ≠ some ["Node".data, "React".data] := by
  constructor
  · decide
  · decide

/-- C9: in every assembled record, the experience entry's `duration_string`
and `summary` and the record's `work_experience` pass through
`remove_unrecognized_characters`, so they contain only ASCII characters and
no newline. -/
theorem C9_cleaned_fields_ascii (text : Str) (jsk : Option (List SkillEntry))
    (jds : Option (List DesigEntry)) (r : ExtractedRecord)
    (h : check_titles_and_extract_info text jsk jds = Except.ok r) :
    cleanStr r.work_experience ∧
    ∀ e ∈ r.experience, cleanStr e.duration_string ∧ cleanStr e.summary := by
  obtain ⟨-, hw, s, -, hd, hsm⟩ := check_titles_ok_inv text jsk jds r h
  refine ⟨hw ▸ remove_unrecognized_clean _, ?_⟩
  intro e he
  cases hexp : r.experience with
  | nil => rw [hexp] at hd; cases hd
  | cons a t =>
    rw [hexp] at hd hsm
    rw [hexp] at he
    simp only [List.map_cons] at hd hsm
    injection hd with hd1 hd2
    injection hsm with hs1 hs2
    have ht : t = [] := List.map_eq_nil_iff.mp hd2
    subst ht
    rcases List.mem_singleton.mp he with rfl
    exact ⟨hd1 ▸ remove_unrecognized_clean _, hs1 ▸ remove_unrecognized_clean _⟩

/-- The record assembled from the empty text with a one-element skill list
and an empty designation list. -/
def emptyTextRecord : ExtractedRecord :=
  { name := []
    email := []
    phone := []
    skills := []
    designation := []
    experience := [{ title := [], amount_of_experience := 0,
                     duration_string := "0".data, summary := [] }]
    work_experience := [] }

/-- C9 witness: the record assembled from the empty text has ASCII,
newline-free cleaned fields. -/
theorem C9_cleaned_fields_ascii_witness :
    cleanStr emptyTextRecord.work_experience ∧
    ∀ e ∈ emptyTextRecord.experience, cleanStr e.duration_string ∧ cleanStr e.summary :=
  C9_cleaned_fields_ascii [] (some [⟨"X".data⟩]) (some []) emptyTextRecord (by decide)

end PdfParser
